import Mathlib

/-!
Verification development for the strict_fsh wildcard-selection and
filesystem-reconciliation engine (src/python3/strict_fsh.py).

Python strings are modelled as Lean `String`; the string primitives the
source uses (slicing, `startswith`, `endswith`, `in`, `os.path.dirname`,
`os.path.join`) are defined below on the underlying character list, which
matches Python's code-point indexing.  Fallible code (raised exceptions,
`assert`) is modelled with `Except`.
-/

/-- Python `pat in s` restricted to prefix tests: `listPref pat l` is true iff
`pat` is a prefix of `l` (character list level). -/
def listPref : List Char → List Char → Bool
  | [], _ => true
  | _ :: _, [] => false
  | a :: as, b :: bs => a == b && listPref as bs

/-- Python `s.startswith(pre)`. -/
def strStartsW (s pre : String) : Bool :=
  listPref pre.data s.data

/-- Python `s.endswith(suf)`. -/
def strEndsW (s suf : String) : Bool :=
  listPref suf.data.reverse s.data.reverse

/-- Python `s[n:]`. -/
def strDropN (s : String) (n : Nat) : String :=
  String.mk (s.data.drop n)

/-- Python `s[:n]`. -/
def strTakeN (s : String) (n : Nat) : String :=
  String.mk (s.data.take n)

/-- Python `c in s` for a single character. -/
def strHasChar (s : String) (c : Char) : Bool :=
  s.data.contains c

/-- Prefix of `l` up to and including its last `'/'`; `[]` when `l` has no
slash.  Helper for `os.path.dirname`. -/
def upToLastSlash : List Char → List Char
  | [] => []
  | c :: rest =>
      if rest.contains '/' then c :: upToLastSlash rest
      else if c == '/' then ['/'] else []

/-- `os.path.dirname` (posixpath): everything up to the last slash, with
trailing slashes stripped unless the head consists only of slashes. -/
def dirname (p : String) : String :=
  let head := upToLastSlash p.data
  if head.isEmpty || head.all (· == '/') then String.mk head
  else String.mk ((head.reverse.dropWhile (· == '/')).reverse)

/-- `os.path.join(a, b)` (posixpath) for the shapes the source uses:
`b` absolute replaces `a`; otherwise a single slash is inserted unless `a`
is empty or already ends with one. -/
def osPathJoin (a b : String) : String :=
  if strStartsW b "/" then b
  else if a = "" then b
  else if strEndsW a "/" then a ++ b
  else a ++ "/" ++ b

/-- `_pathAddSlash` (strict_fsh.py line 1309). -/
def pathAddSlash (path : String) : String :=
  if path = "/" then path else path ++ "/"

/-- `_HelperWildcard.is_pattern_inc_or_exc` (line 836): a pattern is an
inclusion iff it starts with `"+ "`. -/
def is_pattern_inc_or_exc (wildcard : String) : Bool :=
  strStartsW wildcard "+ "

/-- `_HelperWildcard.match_pattern` (lines 820-834). -/
def match_pattern (name wildcard : String) : Bool :=
  let p := strDropN wildcard 2
  if strEndsW p "/***" then
    let p := dirname p
    name == p || strStartsW name (pathAddSlash p)
  else if strEndsW p "/**" then
    let p := dirname p
    strStartsW name (pathAddSlash p)
  else
    name == p

/-- The per-rule validity test performed by `_HelperWildcard.check_patterns`
(lines 810-818): sign prefix, path starting with `/` at index 2, and `*`
allowed only via a trailing `/**` or `/***`. -/
def checkPattern1 (w : String) : Bool :=
  (strStartsW w "+ " || strStartsW w "- ") &&
  (decide (3 ≤ w.data.length) && (w.data.getD 2 ' ' == '/')) &&
  (!(strHasChar w '*') || strEndsW w "/***" || strEndsW w "/**")

/-- `_HelperWildcard.check_patterns`: raises `WildcardError` on the first
invalid rule. -/
def check_patterns : List String → Except String Unit
  | [] => Except.ok ()
  | w :: rest =>
      if checkPattern1 w then check_patterns rest
      else Except.error ("invalid wildcard \"" ++ w ++ "\"")

/-- The first-match-wins scan inside `wildcards_match` (lines 81-84). -/
def wildcardsMatchLoop (name : String) : List String → Bool
  | [] => false
  | w :: rest =>
      if match_pattern name w then is_pattern_inc_or_exc w
      else wildcardsMatchLoop name rest

/-- `wildcards_match` (lines 68-84): validate, then return the sign of the
first matching pattern, `False` when none matches. -/
def wildcards_match (name : String) (wildcards : List String) : Except String Bool :=
  match check_patterns wildcards with
  | Except.error e => Except.error e
  | Except.ok _ => Except.ok (wildcardsMatchLoop name wildcards)

/-- The inner per-name loop of `wildcards_filter` (lines 93-99): one copy of
`name` is appended for every matching inclusion rule until a matching
exclusion rule breaks the scan. -/
def wildcardsFilterLoop (name : String) : List String → List String
  | [] => []
  | w :: rest =>
      if match_pattern name w then
        if is_pattern_inc_or_exc w then name :: wildcardsFilterLoop name rest
        else []
      else wildcardsFilterLoop name rest

/-- `wildcards_filter` (lines 87-100). -/
def wildcards_filter (names : List String) (wildcards : List String) :
    Except String (List String) :=
  match check_patterns wildcards with
  | Except.error e => Except.error e
  | Except.ok _ => Except.ok (names.flatMap (fun n => wildcardsFilterLoop n wildcards))

/-- `merge_wildcards` (lines 55-57), including its `assert` (the source marks
it `# FIXME`): every rule of the FIRST list must be an inclusion, otherwise
the call dies with `AssertionError`. -/
def merge_wildcards (wildcards1 wildcards2 : List String) : Except String (List String) :=
  if wildcards1.all (fun w => is_pattern_inc_or_exc w) then
    Except.ok (wildcards1 ++ wildcards2)
  else
    Except.error "AssertionError: all(is_pattern_inc_or_exc(w) for w in wildcards1)"

/-! ## The tree walker (`RootFs._wildcardsGlob` / `_wildcardsGlobImpl`)

The physical tree is modelled by `FsNode`.  `os.path.isdir(p) and not
os.path.islink(p)` is true exactly for `dir` nodes: a symbolic link that
points at a directory (`linkDir`) carries the target's entries in the model,
but fails the source's test and is handled by the leaf branch, which performs
no `os.listdir`. -/

inductive FsNode where
  | dir (children : List (String × FsNode))
  | file
  | linkDir (children : List (String × FsNode))

/-- `w.endswith("/***") or w.endswith("/**")` (lines 557, 562). -/
def recursiveSuffix (w : String) : Bool :=
  strEndsW w "/***" || strEndsW w "/**"

/-- `os.path.join(curPath, fn)` for a directory entry name. -/
def pathJoin (curPath fn : String) : String :=
  pathAddSlash curPath ++ fn

/-- The pattern scan of `_wildcardsGlobImpl` for a real directory
(lines 549-568).  State: `bRecorded` as in the source; `bEmitted` records
whether `result.append(curPath)` has run (an inclusion match seen while
`bRecorded` was still false); `bRecursive` as in the source.  Returns
`(bEmitted, bRecursive)` at the point the loop ends or breaks. -/
def wildcardsGlobDirScan (curPath : String) (ws : List String)
    (bRecorded bEmitted bRecursive : Bool) : Bool × Bool :=
  match ws with
  | [] => (bEmitted, bRecursive)
  | w :: rest =>
      if match_pattern curPath w then
        if is_pattern_inc_or_exc w then
          let bEmitted' := bEmitted || !bRecorded
          if recursiveSuffix w then (bEmitted', true)
          else wildcardsGlobDirScan curPath rest true bEmitted' bRecursive
        else
          if recursiveSuffix w then (bEmitted, bRecursive)
          else wildcardsGlobDirScan curPath rest true bEmitted bRecursive
      else
        if is_pattern_inc_or_exc w && strStartsW (strDropN w 2) (pathAddSlash curPath) then
          if bRecorded then (bEmitted, true)
          else wildcardsGlobDirScan curPath rest bRecorded bEmitted true
        else wildcardsGlobDirScan curPath rest bRecorded bEmitted bRecursive

mutual

/-- `RootFs._wildcardsGlobImpl` (lines 547-577).  First component: the paths
appended to `result`, in order.  Second component: the trace of directories
passed to `os.listdir` (line 570). -/
def wildcardsGlobImpl : FsNode → String → List String → List String × List String
  | FsNode.dir cs, curPath, ws =>
      let a := wildcardsGlobDirScan curPath ws false false false
      let here := if a.1 then [curPath] else []
      if a.2 then
        let r := wildcardsGlobChildren cs curPath ws
        (here ++ r.1, curPath :: r.2)
      else (here, [])
  | _, curPath, ws =>
      (if wildcardsMatchLoop curPath ws then [curPath] else [], [])

/-- The `for fn in os.listdir(curPath)` recursion (lines 570-571). -/
def wildcardsGlobChildren :
    List (String × FsNode) → String → List String → List String × List String
  | [], _, _ => ([], [])
  | e :: rest, curPath, ws =>
      let a := wildcardsGlobImpl e.2 (pathJoin curPath e.1) ws
      let b := wildcardsGlobChildren rest curPath ws
      (a.1 ++ b.1, a.2 ++ b.2)

end

/-- `RootFs._wildcardsGlob` (lines 536-545): each wildcard's path is joined
onto the directory prefix, the walk starts at the prefix, and results are
mapped back to prefix-relative absolute paths. -/
def wildcardsGlob (dirPref : String) (root : FsNode) (wildcards : List String) :
    List String :=
  let ws2 := wildcards.map (fun w => strTakeN w 2 ++ osPathJoin dirPref (strDropN w 3))
  let r := wildcardsGlobImpl root dirPref ws2
  r.1.map (fun x => "/" ++ strDropN x dirPref.data.length)

def exampleTreeC3 : FsNode :=
  FsNode.dir [("usr", FsNode.dir
    [("bin", FsNode.dir []),
     ("src", FsNode.dir [("foo", FsNode.file)]),
     ("lib", FsNode.dir [])])]

def exampleTreeC4 : FsNode :=
  FsNode.dir [("usr", FsNode.dir [("src", FsNode.dir [("foo", FsNode.file)])])]

/-! ## The reconciler (`_HelperPrefixedDirOp`, `_HelperUsrMerge`)

On-disk state is a tree of `FsObj` carrying permission bits and ownership.
The session's directory prefix is instantiated to `"/"` (so `__fn2fullfn` is
the identity) and owner/group identities are numeric ids (the source accepts
either names or ids).  Path lookup walks real directories; the reconciler
scenarios modelled here have no symbolic links in intermediate path
components.  `os.path.realpath` of a symlink entry resolves its target
(absolute, or relative to the containing directory); deeper chains do not
occur in the modelled scenarios.  Exceptions that escape a primitive
(`MoveDirError`, `OSError`) are `Except.error`. -/

inductive FsObj where
  | dir (mode uid gid : Nat) (children : List (String × FsObj))
  | file (mode uid gid : Nat)
  | symlink (target : String)

mutual

/-- Structural equality test for `FsObj` (replacement for a derived
`DecidableEq`, which Lean does not generate for this nested inductive). -/
def beqFsObj : FsObj → FsObj → Bool
  | FsObj.dir m u g cs, FsObj.dir m' u' g' cs' =>
      m == m' && u == u' && g == g' && beqFsObjChildren cs cs'
  | FsObj.file m u g, FsObj.file m' u' g' => m == m' && u == u' && g == g'
  | FsObj.symlink t, FsObj.symlink t' => t == t'
  | _, _ => false

/-- Entry-list companion of `beqFsObj`. -/
def beqFsObjChildren : List (String × FsObj) → List (String × FsObj) → Bool
  | [], [] => true
  | (n, c) :: r, (n', c') :: r' => n == n' && beqFsObj c c' && beqFsObjChildren r r'
  | _, _ => false

end

/-- `os.path.islink`. -/
def isLinkObj : FsObj → Bool
  | FsObj.symlink _ => true
  | _ => false

/-- `_isRealDir` (line 1316): `os.path.isdir(path) and not os.path.islink(path)`. -/
def isRealDirObj : FsObj → Bool
  | FsObj.dir _ _ _ _ => true
  | _ => false

/-- Entries of a directory object (`os.listdir`). -/
def childrenObj : FsObj → List (String × FsObj)
  | FsObj.dir _ _ _ cs => cs
  | _ => []

/-- Replace a directory object's entry list. -/
def withChildren : FsObj → List (String × FsObj) → FsObj
  | FsObj.dir m u g _, cs => FsObj.dir m u g cs
  | o, _ => o

/-- `stat.S_IMODE(os.lstat(p).st_mode)` (permission bits). -/
def objPerm : FsObj → Nat
  | FsObj.dir m _ _ _ => m
  | FsObj.file m _ _ => m
  | FsObj.symlink _ => 511

/-- `os.lstat(p).st_uid`. -/
def objUid : FsObj → Nat
  | FsObj.dir _ u _ _ => u
  | FsObj.file _ u _ => u
  | FsObj.symlink _ => 0

/-- `os.lstat(p).st_gid`. -/
def objGid : FsObj → Nat
  | FsObj.dir _ _ g _ => g
  | FsObj.file _ _ g => g
  | FsObj.symlink _ => 0

/-- `os.chmod`. -/
def setPermObj (o : FsObj) (m : Nat) : FsObj :=
  match o with
  | FsObj.dir _ u g cs => FsObj.dir m u g cs
  | FsObj.file _ u g => FsObj.file m u g
  | FsObj.symlink t => FsObj.symlink t

/-- `os.lchown`. -/
def setOwnObj (o : FsObj) (u g : Nat) : FsObj :=
  match o with
  | FsObj.dir m _ _ cs => FsObj.dir m u g cs
  | FsObj.file m _ _ => FsObj.file m u g
  | FsObj.symlink t => FsObj.symlink t

/-- First entry named `nm` in a directory listing. -/
def lookupC (nm : String) : List (String × FsObj) → Option FsObj
  | [] => none
  | (n, c) :: rest => if n = nm then some c else lookupC nm rest

/-- Look up the object at a path given as segments, walking directory
entries. -/
def lookupP : FsObj → List String → Option FsObj
  | t, [] => some t
  | FsObj.dir _ _ _ cs, nm :: rest =>
      match lookupC nm cs with
      | some c => lookupP c rest
      | none => none
  | _, _ :: _ => none

/-- Replace (`some`) or delete (`none`) the entry named `nm`; replacing a
missing entry appends it (file creation). -/
def setEntry (nm : String) (v : Option FsObj) : List (String × FsObj) → List (String × FsObj)
  | [] =>
      (match v with
       | some x => [(nm, x)]
       | none => [])
  | (n, c) :: rest =>
      if n = nm then
        (match v with
         | some x => (nm, x) :: rest
         | none => rest)
      else (n, c) :: setEntry nm v rest

/-- Apply `f` to the entry named `nm` (no-op when absent). -/
def modEntry (nm : String) (f : FsObj → FsObj) : List (String × FsObj) → List (String × FsObj)
  | [] => []
  | (n, c) :: rest => if n = nm then (n, f c) :: rest else (n, c) :: modEntry nm f rest

/-- Write `v` at a path: create/replace/delete the final segment's entry.
A missing or non-directory intermediate component leaves the tree unchanged
(the corresponding `os` call would raise; callers only reach this with
existing parents). -/
def setP : FsObj → List String → Option FsObj → FsObj
  | t, [], v =>
      (match v with
       | some x => x
       | none => t)
  | FsObj.dir m u g cs, [nm], v => FsObj.dir m u g (setEntry nm v cs)
  | FsObj.dir m u g cs, nm :: rest, v =>
      FsObj.dir m u g (modEntry nm (fun c => setP c rest v) cs)
  | t, _ :: _, _ => t

/-- Split an absolute path into its segments. -/
def splitAbs (fn : String) : List String :=
  ((fn.data.splitOn '/').filter (fun l => !l.isEmpty)).map String.mk

/-- `os.path.realpath` for a directory entry `o` living at absolute path
`path`: a symlink resolves to its target, taken as absolute or relative to
the containing directory; anything else resolves to its own path. -/
def realpathObj (path : String) (o : FsObj) : String :=
  match o with
  | FsObj.symlink t => if strStartsW t "/" then t else osPathJoin (dirname path) t
  | _ => path

/-- `_hasSameStat` (lines 1320-1329): same `st_mode`, `st_uid`, `st_gid`. -/
def hasSameStat (a b : FsObj) : Bool :=
  objPerm a == objPerm b && objUid a == objUid b && objGid a == objGid b

mutual

/-- `_HelperUsrMerge.compare_dir` (lines 1233-1265): recursive comparison of
the directory objects at paths `src` and `dst`.  Conflicts are
`(path, kind)` pairs in left-list order.  (Callers only pass real
directories; other shapes have no entries to compare.) -/
def compare_dir : String → String → FsObj → FsObj → List (String × String)
  | src, dst, FsObj.dir _ _ _ lcs, dstObj => compareDirLoop src dst lcs (childrenObj dstObj)
  | _, _, _, _ => []

/-- The `for li in left_list` loop of `compare_dir` (lines 1239-1263). -/
def compareDirLoop : String → String → List (String × FsObj) → List (String × FsObj) →
    List (String × String)
  | _, _, [], _ => []
  | src, dst, (li, lobj) :: rest, dstCs =>
      let tail := compareDirLoop src dst rest dstCs
      match lookupC li dstCs with
      | none => tail
      | some robj =>
          let fli := osPathJoin src li
          let fri := osPathJoin dst li
          if (isLinkObj lobj && realpathObj fli lobj == fri) ||
             (isLinkObj robj && realpathObj fri robj == fli) then tail
          else if !isRealDirObj lobj then (fli, "left-file") :: tail
          else if !isRealDirObj robj then (fli, "right-file") :: tail
          else if !hasSameStat lobj robj then (fli, "stat-not-same") :: tail
          else compare_dir fli fri lobj robj ++ tail

end

mutual

/-- `_HelperUsrMerge.move_dir` (lines 1267-1294): relocate every entry of
the directory at `src` into the directory at `dst`, returning `dst`'s new
entry list; the final `os.rmdir(src)` is the caller dropping the source
entry.  `MoveDirError` is `Except.error` carrying the offending path. -/
def move_dir : String → String → FsObj → FsObj → Except String (List (String × FsObj))
  | src, dst, FsObj.dir _ _ _ lcs, dstObj => moveDirLoop src dst lcs (childrenObj dstObj)
  | _, _, _, dstObj => Except.ok (childrenObj dstObj)

/-- The `for li in left_list` loop of `move_dir` (lines 1272-1292), folding
the updates into `dst`'s entry list. -/
def moveDirLoop : String → String → List (String × FsObj) → List (String × FsObj) →
    Except String (List (String × FsObj))
  | _, _, [], dstCs => Except.ok dstCs
  | src, dst, (li, lobj) :: rest, dstCs =>
      let fli := osPathJoin src li
      let fri := osPathJoin dst li
      match lookupC li dstCs with
      | none => moveDirLoop src dst rest (dstCs ++ [(li, lobj)])
      | some robj =>
          if isLinkObj lobj && realpathObj fli lobj == fri then
            moveDirLoop src dst rest dstCs
          else if isLinkObj robj && realpathObj fri robj == fli then
            moveDirLoop src dst rest (setEntry li (some lobj) dstCs)
          else if isRealDirObj lobj && isRealDirObj robj && hasSameStat lobj robj then
            match move_dir fli fri lobj robj with
            | Except.ok merged =>
                moveDirLoop src dst rest (setEntry li (some (withChildren robj merged)) dstCs)
            | Except.error e => Except.error e
          else Except.error fli

end

/-- `_HelperPrefixedDirOp.__checkMode` (lines 1178-1188): compare the
permission bits of the object at `segs`; `os.chmod` under auto-fix,
otherwise report.  (Callers only reach this for existing non-link
paths.) -/
def checkMode (fs : FsObj) (bAutoFix : Bool) (fn : String) (segs : List String)
    (mode : Nat) : FsObj × List String :=
  match lookupP fs segs with
  | some obj =>
      if objPerm obj ≠ mode then
        if bAutoFix then (setP fs segs (some (setPermObj obj mode)), [])
        else (fs, ["\"" ++ fn ++ "\" has invalid permission."])
      else (fs, [])
  | none => (fs, [])

/-- `_HelperPrefixedDirOp.__checkOwnerGroup` (lines 1190-1214) with numeric
ids: the single `os.lstat` result `s` is taken before either fix, so the
second `os.lchown` restores the stale `s.st_uid` (faithful to the source).
Checks run in order: owner, then group. -/
def checkOwnerGroup (fs : FsObj) (bAutoFix : Bool) (fn : String) (segs : List String)
    (ownerId groupId : Nat) : FsObj × List String :=
  match lookupP fs segs with
  | some obj =>
      let u := objUid obj
      let g := objGid obj
      let step1 : FsObj × List String :=
        if u ≠ ownerId then
          if bAutoFix then (setP fs segs (some (setOwnObj obj ownerId g)), [])
          else (fs, ["\"" ++ fn ++ "\" has invalid owner."])
        else (fs, [])
      if g ≠ groupId then
        if bAutoFix then
          match lookupP step1.1 segs with
          | some obj2 => (setP step1.1 segs (some (setOwnObj obj2 u groupId)), step1.2)
          | none => step1
        else (step1.1, step1.2 ++ ["\"" ++ fn ++ "\" has invalid owner group."])
      else step1
  | none => (fs, [])

/-- `_HelperPrefixedDirOp._checkDir` (lines 866-888), with the directory
prefix instantiated to `"/"`.  `os.mkdir` on a missing parent raises, which
surfaces as `Except.error`; a freshly created directory gets the customary
`0o755` bits.  The session's claimed-path record is bookkeeping outside the
disk state.  Returns the new disk state and the reported violations. -/
def checkDir (fs0 : FsObj) (bAutoFix : Bool) (fn : String) (mode : Option Nat)
    (og : Option (Nat × Nat)) : Except String (FsObj × List String) :=
  let segs := splitAbs fn
  if (lookupP fs0 segs).isNone && !bAutoFix then
    Except.ok (fs0, ["\"" ++ fn ++ "\" does not exist."])
  else
    let fs := if (lookupP fs0 segs).isNone
      then setP fs0 segs (some (FsObj.dir 493 0 0 [])) else fs0
    match lookupP fs segs with
    | none => Except.error ("OSError: mkdir " ++ fn)
    | some obj =>
        if isLinkObj obj || !isRealDirObj obj then
          Except.ok (fs, ["\"" ++ fn ++ "\" is invalid."])
        else
          let a := match mode with
            | none => (fs, [])
            | some m => checkMode fs bAutoFix fn segs m
          let b := match og with
            | none => (a.1, [])
            | some p => checkOwnerGroup a.1 bAutoFix fn segs p.1 p.2
          Except.ok (b.1, a.2 ++ b.2)

/-- Lines 1056-1065 of `_checkUsrMergeSymlink`: the `os.readlink(fullfn)`
comparison reached once `fullfn` is (or has just become) a symlink. -/
def usrMergeTail (fs : FsObj) (bAutoFix : Bool) (fn target : String)
    (fnSegs : List String) : FsObj × List String :=
  match lookupP fs fnSegs with
  | some (FsObj.symlink t) =>
      if t ≠ target then
        if bAutoFix then (setP fs fnSegs (some (FsObj.symlink target)), [])
        else (fs, ["\"" ++ fn ++ "\" is invalid."])
      else (fs, [])
  | _ => (fs, [])

/-- `_HelperPrefixedDirOp._checkUsrMergeSymlink` (lines 1022-1065), with the
directory prefix instantiated to `"/"` and no owner check (callers in the
source pass none).  Note the legacy-merge branch (lines 1043-1050) runs
`move_dir` and `os.symlink` without consulting the auto-fix flag. -/
def checkUsrMergeSymlink (fs0 : FsObj) (bAutoFix : Bool) (fn target : String) :
    Except String (FsObj × List String) :=
  let fnSegs := splitAbs fn
  let fullTarget := osPathJoin (dirname fn) target
  let tgtSegs := splitAbs fullTarget
  if (lookupP fs0 fnSegs).isNone && !bAutoFix then
    Except.ok (fs0, ["\"" ++ fn ++ "\" does not exist."])
  else
    let fs := if (lookupP fs0 fnSegs).isNone
      then setP fs0 fnSegs (some (FsObj.symlink target)) else fs0
    match lookupP fs tgtSegs with
    | some tgtObj =>
        if !isRealDirObj tgtObj then
          Except.ok (fs, ["\"" ++ fullTarget ++ "\" is invalid."])
        else
          match lookupP fs fnSegs with
          | none => Except.error ("OSError: symlink " ++ fn)
          | some obj =>
              if !isLinkObj obj then
                if isRealDirObj obj then
                  if compare_dir fn fullTarget obj tgtObj = [] then
                    match move_dir fn fullTarget obj tgtObj with
                    | Except.ok newDstCs =>
                        let fs1 := setP fs tgtSegs (some (withChildren tgtObj newDstCs))
                        let fs2 := setP fs1 fnSegs (some (FsObj.symlink target))
                        Except.ok (usrMergeTail fs2 bAutoFix fn target fnSegs)
                    | Except.error e => Except.error e
                  else
                    Except.ok (fs, ["Directory \"" ++ fn ++ "\" and \"" ++ target ++
                      "\" has common files, no way to combine them."])
                else
                  Except.ok (fs, ["\"" ++ fullTarget ++ "\" is invalid."])
              else Except.ok (usrMergeTail fs bAutoFix fn target fnSegs)
    | none => Except.ok (fs, ["\"" ++ fullTarget ++ "\" is invalid."])

/-- Pre-merge state for the C6 scenario: `/bin` is a real directory holding
one file, `/usr/bin` an empty real directory. -/
def fsLegacyBin : FsObj :=
  FsObj.dir 493 0 0
    [("bin", FsObj.dir 493 0 0 [("cat", FsObj.file 493 0 0)]),
     ("usr", FsObj.dir 493 0 0 [("bin", FsObj.dir 493 0 0 [])])]

/-- The state the merge branch produces even with auto-fix disabled. -/
def fsLegacyBinMerged : FsObj :=
  FsObj.dir 493 0 0
    [("bin", FsObj.symlink "usr/bin"),
     ("usr", FsObj.dir 493 0 0 [("bin", FsObj.dir 493 0 0 [("cat", FsObj.file 493 0 0)])])]

/-- Conflicting state for the C7 scenario: `/bin` and `/usr/bin` share the
entry name `cat`, as files with different permission bits. -/
def fsConflictBin : FsObj :=
  FsObj.dir 493 0 0
    [("bin", FsObj.dir 493 0 0 [("cat", FsObj.file 493 0 0)]),
     ("usr", FsObj.dir 493 0 0 [("bin", FsObj.dir 493 0 0 [("cat", FsObj.file 420 0 0)])])]

/-! ## Auxiliary notions for the walker theorems -/

/-- A directory entry name as `os.listdir` can produce it: nonempty and
slash-free. -/
def validName (s : String) : Bool :=
  !s.data.isEmpty && decide ('/' ∉ s.data)

/-- Pairwise-distinct entry names, as in a physical directory. -/
def distinctNames : List String → Bool
  | [] => true
  | n :: rest => decide (n ∉ rest) && distinctNames rest

mutual

/-- Well-formedness of a modelled tree: valid, pairwise-distinct entry names
throughout. -/
def validTree : FsNode → Bool
  | FsNode.dir cs => distinctNames (cs.map Prod.fst) && validEntries cs
  | FsNode.linkDir cs => distinctNames (cs.map Prod.fst) && validEntries cs
  | FsNode.file => true

/-- Entry-list companion of `validTree`. -/
def validEntries : List (String × FsNode) → Bool
  | [] => true
  | (n, c) :: rest => validName n && validTree c && validEntries rest

end

/-- First entry named `n` in an `FsNode` entry list. -/
def lookupFsN (n : String) : List (String × FsNode) → Option FsNode
  | [] => none
  | (m, c) :: rest => if m = n then some c else lookupFsN n rest

/-- Follow entry names through real directories only. -/
def nodeAtReal : FsNode → List String → Option FsNode
  | t, [] => some t
  | FsNode.dir cs, n :: rest =>
      match lookupFsN n cs with
      | some c => nodeAtReal c rest
      | none => none
  | _, _ :: _ => none

/-- The absolute path of the node reached from `path` through the entry
names `segs`. -/
def joinSegs (path : String) : List String → String
  | [] => path
  | n :: rest => joinSegs (pathJoin path n) rest

/-- `p` lies strictly below `s` in the emitted-path sense. -/
def strictlyBelow (p s : String) : Prop :=
  p ≠ s ∧ strStartsW p (pathAddSlash s) = true

/-! ## Claim-side predicates -/

/-- The per-rule acceptance condition that `check_patterns` actually
enforces, restated independently of the loop: an inclusion/exclusion sign
prefix, a path segment starting with `/`, and — suffix-based only — a
wildcard marker `*` tolerated exactly when the rule ends with `/**` or
`/***`.  NOTE: this is weaker than the specification's wording: a rule
ending with `/**` or `/***` is accepted even when a `*` occurs in an
earlier path segment (e.g. `"+ /a*/**"`). -/
def ruleAccepted (w : String) : Bool :=
  (strStartsW w "+ " || strStartsW w "- ") &&
  strStartsW (strDropN w 2) "/" &&
  (!(strHasChar w '*') || strEndsW w "/***" || strEndsW w "/**")

/-- The specification's placement condition on the wildcard marker, stated
from claim C8's wording: every `*` of the rule's path segment lies in its
final `/`-separated segment. -/
def starOnlyInFinalSegment (w : String) : Bool :=
  (((strDropN w 2).data.splitOn '/').dropLast).all (fun seg => decide ('*' ∉ seg))

/-- The number of inclusion rules matching `name` that precede any matching
exclusion rule (claim C10's counting description of `wildcards_filter`). -/
def incCountBeforeExc (name : String) : List String → Nat
  | [] => 0
  | w :: rest =>
      if match_pattern name w then
        if is_pattern_inc_or_exc w then incCountBeforeExc name rest + 1
        else 0
      else incCountBeforeExc name rest

/-! ## Theorems -/

theorem wildcardsMatchLoop_of_no_match (name : String) (ws : List String)
    (h : ∀ w ∈ ws, match_pattern name w = false) :
    wildcardsMatchLoop name ws = false := by
  induction ws with
  | nil => rfl
  | cons w rest ih =>
      simp only [wildcardsMatchLoop, h w (List.mem_cons_self w rest)]
      exact ih (fun v hv => h v (List.mem_cons_of_mem w hv))

theorem wildcardsMatchLoop_first (name w : String) (pre post : List String)
    (hpre : ∀ v ∈ pre, match_pattern name v = false)
    (hw : match_pattern name w = true) :
    wildcardsMatchLoop name (pre ++ w :: post) = is_pattern_inc_or_exc w := by
  induction pre with
  | nil => simp [wildcardsMatchLoop, hw]
  | cons v pre ih =>
      simp only [List.cons_append, wildcardsMatchLoop,
        hpre v (List.mem_cons_self v pre)]
      exact ih (fun u hu => hpre u (List.mem_cons_of_mem v hu))

/-- C1: for every valid wildcard list, `wildcards_match` returns `false` when
no rule matches the path, and otherwise the sign of the first matching rule
in declared order, regardless of any later matching rules. -/
theorem wildcards_match_first_match_wins (ws : List String) (name : String)
    (hok : check_patterns ws = Except.ok ()) :
    ((∀ w ∈ ws, match_pattern name w = false) →
        wildcards_match name ws = Except.ok false) ∧
    (∀ pre w post, ws = pre ++ w :: post →
        (∀ v ∈ pre, match_pattern name v = false) → match_pattern name w = true →
        wildcards_match name ws = Except.ok (is_pattern_inc_or_exc w)) := by
  constructor
  · intro h
    simp [wildcards_match, hok, wildcardsMatchLoop_of_no_match name ws h]
  · intro pre w post hsplit hpre hw
    subst hsplit
    simp [wildcards_match, hok, wildcardsMatchLoop_first name w pre post hpre hw]

/-- C1 witness: concrete application of `wildcards_match_first_match_wins`. -/
theorem wildcards_match_first_match_wins_witness :
    wildcards_match "/a/b" ["+ /a/**", "- /a/**"] = Except.ok true := by
  have h := (wildcards_match_first_match_wins ["+ /a/**", "- /a/**"] "/a/b" rfl).2
    [] "+ /a/**" ["- /a/**"] rfl (by intro v hv; cases hv) (by decide)
  simpa using h

theorem slashAt2 (l : List Char) :
    listPref ['/'] (l.drop 2) = (decide (3 ≤ l.length) && (l.getD 2 ' ' == '/')) := by
  match l with
  | [] => rfl
  | [a] => rfl
  | [a, b] => rfl
  | a :: b :: c :: rest =>
      simp [listPref, List.getD]
      exact eq_comm

theorem checkPattern1_eq_accepted (w : String) : checkPattern1 w = ruleAccepted w := by
  unfold checkPattern1 ruleAccepted
  have h : strStartsW (strDropN w 2) "/" = listPref ['/'] (w.data.drop 2) := rfl
  rw [h, slashAt2 w.data]

/-- C8 counterexample: the rule `"+ /a*/**"` has the sign prefix and a path
segment starting with `/`, and per the claim its validation must fail — its
`*` in the segment `a*` is not in the final path segment — yet
`check_patterns` accepts it, because the code's star check (line 817) only
looks at the rule's suffix. -/
theorem check_patterns_inner_star_counterexample :
    check_patterns ["+ /a*/**"] = Except.ok () ∧
    starOnlyInFinalSegment "+ /a*/**" = false ∧
    (strStartsW "+ /a*/**" "+ " || strStartsW "+ /a*/**" "- ") = true ∧
    strStartsW (strDropN "+ /a*/**" 2) "/" = true := by
  refine ⟨rfl, by decide, rfl, rfl⟩

/-- C8 amended: `check_patterns` raises `WildcardError` exactly for: a rule
lacking the `"+ "`/`"- "` sign prefix, a rule whose path segment does not
start with `/`, and a rule containing a wildcard marker `*` that does not
end with `/**` or `/***`.  The star check is suffix-based only — a rule
ending with `/**` or `/***` is accepted even when a `*` occurs in an
earlier path segment — and on a list containing only rules passing these
checks, validation succeeds without error. -/
theorem check_patterns_ok_iff_accepted (ws : List String) :
    check_patterns ws = Except.ok () ↔ ∀ w ∈ ws, ruleAccepted w = true := by
  induction ws with
  | nil => simp [check_patterns]
  | cons w rest ih =>
      simp only [check_patterns, checkPattern1_eq_accepted w]
      by_cases h : ruleAccepted w = true
      · simp [h, ih]
      · simp [h]

/-- C9: the claim is right and the code is wrong.  `merge_wildcards` carries
an `assert` (marked `# FIXME` in the source) requiring every rule of its
FIRST argument to be an inclusion, so merging two perfectly valid lists dies
with `AssertionError` as soon as the first list contains an exclusion rule,
instead of returning the concatenation. -/
theorem merge_wildcards_rejects_valid_exclusion_list :
    check_patterns ["- /a"] = Except.ok () ∧
    check_patterns ["+ /b"] = Except.ok () ∧
    merge_wildcards ["- /a"] ["+ /b"] =
      Except.error "AssertionError: all(is_pattern_inc_or_exc(w) for w in wildcards1)" :=
  ⟨rfl, rfl, rfl⟩

theorem wildcardsFilterLoop_replicate (name : String) (ws : List String) :
    wildcardsFilterLoop name ws = List.replicate (incCountBeforeExc name ws) name := by
  induction ws with
  | nil => rfl
  | cons w rest ih =>
      unfold wildcardsFilterLoop incCountBeforeExc
      by_cases h1 : match_pattern name w <;> simp [h1]
      · by_cases h2 : is_pattern_inc_or_exc w <;> simp [h2]
        · rw [ih]; rfl
      · exact ih

/-- C10: `wildcards_filter` appends a name once per inclusion rule matching
it before any matching exclusion rule, so the result replicates each name
that many times (a name matched by several inclusion rules appears several
times, unlike a selection by `wildcards_match`). -/
theorem wildcards_filter_replicates_inclusion_matches (names ws : List String)
    (hok : check_patterns ws = Except.ok ()) :
    wildcards_filter names ws =
      Except.ok (names.flatMap (fun n => List.replicate (incCountBeforeExc n ws) n)) := by
  have h : (fun n => wildcardsFilterLoop n ws) =
      (fun n => List.replicate (incCountBeforeExc n ws) n) :=
    funext (fun n => wildcardsFilterLoop_replicate n ws)
  simp [wildcards_filter, hok, h]

/-- C10 witness: a name matched by two inclusion rules appears twice. -/
theorem wildcards_filter_replicates_inclusion_matches_witness :
    wildcards_filter ["/a"] ["+ /a", "+ /a"] = Except.ok ["/a", "/a"] := by
  have h := wildcards_filter_replicates_inclusion_matches ["/a"] ["+ /a", "+ /a"] rfl
  simpa using h

/-- C2 counterexample: for the valid root rule `"+ /**"`, the path `"/"` is
matched by `match_pattern` although it neither differs from the rule's
directory prefix (it IS the directory itself, which the claim says never
matches in contents-recursive mode) nor starts with the prefix followed by
`"/"` (that would be `"//"`): the source uses `_pathAddSlash`, which leaves
the root prefix as a single slash. -/
theorem match_pattern_root_rule_counterexample :
    checkPattern1 "+ /**" = true ∧
    match_pattern "/" "+ /**" = true ∧
    dirname (strDropN "+ /**" 2) = "/" ∧
    strStartsW "/" (dirname (strDropN "+ /**" 2) ++ "/") = false := by
  refine ⟨rfl, rfl, rfl, rfl⟩

/-- C2 amended: `match_pattern` behaves per mode, with the slash appended to
the directory prefix via `pathAddSlash`, which leaves the root prefix `"/"`
unchanged instead of producing `"//"`: an exact rule matches iff the path
equals the rule's path; a `/***` rule matches iff the path equals the
directory prefix or starts with `pathAddSlash` of it; a `/**` rule matches
iff the path starts with `pathAddSlash` of the prefix — so for non-root
prefixes the directory itself never matches in contents-recursive mode, but
the root directory does match a root `/**` rule. -/
theorem match_pattern_mode_characterization (name w : String)
    (hval : checkPattern1 w = true) :
    (strEndsW (strDropN w 2) "/***" = true →
      (match_pattern name w = true ↔
        (name = dirname (strDropN w 2) ∨
         strStartsW name (pathAddSlash (dirname (strDropN w 2))) = true))) ∧
    (strEndsW (strDropN w 2) "/***" = false → strEndsW (strDropN w 2) "/**" = true →
      (match_pattern name w = true ↔
        strStartsW name (pathAddSlash (dirname (strDropN w 2))) = true)) ∧
    (strEndsW (strDropN w 2) "/***" = false → strEndsW (strDropN w 2) "/**" = false →
      (match_pattern name w = true ↔ name = strDropN w 2)) := by
  refine ⟨?_, ?_, ?_⟩
  · intro h1
    simp [match_pattern, h1]
  · intro h1 h2
    simp [match_pattern, h1, h2]
  · intro h1 h2
    simp [match_pattern, h1, h2]

/-- C2 witness: concrete application of `match_pattern_mode_characterization`. -/
theorem match_pattern_mode_characterization_witness :
    match_pattern "/usr/src" "+ /usr/***" = true := by
  exact ((match_pattern_mode_characterization "/usr/src" "+ /usr/***" rfl).1 rfl).mpr
    (Or.inr rfl)

/-- C3 counterexample: on the specification's example tree, the walker DOES
yield `/usr/src/foo` (the first-listed rule `"+ /usr/**"` matches it before
the exclusion is consulted) and does NOT yield `/usr` (which matches no
rule, `/**` being contents-only). -/
theorem wildcardsGlob_usr_example_counterexample :
    "/usr/src/foo" ∈ wildcardsGlob "/" exampleTreeC3 ["+ /usr/**", "- /usr/src/**"] ∧
    "/usr" ∉ wildcardsGlob "/" exampleTreeC3 ["+ /usr/**", "- /usr/src/**"] := by
  decide

/-- C3 amended: on a tree containing `/usr/bin`, `/usr/src/foo` and
`/usr/lib`, the rules `["+ /usr/**", "- /usr/src/**"]` make the walker yield
exactly `/usr/bin`, `/usr/src`, `/usr/src/foo` and `/usr/lib` — first match
wins, so the leading inclusion covers everything under `/usr` and the later
exclusion is never reached, while `/usr` itself matches no rule and is not
yielded. -/
theorem wildcardsGlob_usr_example_actual :
    wildcardsGlob "/" exampleTreeC3 ["+ /usr/**", "- /usr/src/**"] =
      ["/usr/bin", "/usr/src", "/usr/src/foo", "/usr/lib"] := by
  decide

theorem listPref_append_right (a b c : List Char) (h : listPref a b = true) :
    listPref a (b ++ c) = true := by
  induction a generalizing b with
  | nil => rfl
  | cons x as ih =>
      cases b with
      | nil => exact absurd h (by simp [listPref])
      | cons y bs =>
          simp only [listPref, Bool.and_eq_true] at h
          simp only [List.cons_append, listPref, Bool.and_eq_true]
          exact ⟨h.1, ih bs h.2⟩

theorem strEndsW_of_strEndsW_drop (w s : String) (n : Nat)
    (h : strEndsW (strDropN w n) s = true) : strEndsW w s = true := by
  unfold strEndsW strDropN at *
  have hw : w.data.reverse = (w.data.drop n).reverse ++ (w.data.take n).reverse := by
    rw [← List.reverse_append, List.take_append_drop]
  rw [hw]
  exact listPref_append_right _ _ _ h

theorem scan_recursive_sticky (path : String) (ws : List String) :
    ∀ b e, (wildcardsGlobDirScan path ws b e true).2 = true := by
  induction ws with
  | nil => intro b e; rfl
  | cons w rest ih =>
      intro b e
      unfold wildcardsGlobDirScan
      by_cases h1 : match_pattern path w <;> simp only [h1, if_true, if_false]
      · by_cases h2 : is_pattern_inc_or_exc w <;>
          simp only [h2, if_true, if_false] <;>
          by_cases h3 : recursiveSuffix w <;> simp [h3, ih]
      · by_cases h2 : (is_pattern_inc_or_exc w &&
            strStartsW (strDropN w 2) (pathAddSlash path)) = true
        · simp only [h2, if_true]
          by_cases hb : b <;> simp [hb, ih]
        · simp only [Bool.not_eq_true] at h2
          simp [h2, ih]

theorem scan_descendant_inclusion (path w : String) (post : List String)
    (hinc : is_pattern_inc_or_exc w = true)
    (hdesc : strStartsW (strDropN w 2) (pathAddSlash path) = true)
    (hne : strDropN w 2 ≠ path) :
    ∀ pre b e r,
      (∀ u ∈ pre, ¬(is_pattern_inc_or_exc u = false ∧ match_pattern path u = true ∧
        recursiveSuffix u = true)) →
      (wildcardsGlobDirScan path (pre ++ w :: post) b e r).2 = true := by
  intro pre
  induction pre with
  | nil =>
      intro b e r hpre
      simp only [List.nil_append]
      unfold wildcardsGlobDirScan
      by_cases h1 : match_pattern path w
      · simp only [h1, if_true, hinc]
        by_cases h3 : recursiveSuffix w
        · simp [h3]
        · exfalso
          apply hne
          unfold recursiveSuffix at h3
          simp only [Bool.or_eq_true, not_or, Bool.not_eq_true] at h3
          have e3 : strEndsW (strDropN w 2) "/***" = false := by
            by_contra hcon
            simp only [Bool.not_eq_false] at hcon
            rw [strEndsW_of_strEndsW_drop w "/***" 2 hcon] at h3
            exact absurd h3.1 (by simp)
          have e2 : strEndsW (strDropN w 2) "/**" = false := by
            by_contra hcon
            simp only [Bool.not_eq_false] at hcon
            rw [strEndsW_of_strEndsW_drop w "/**" 2 hcon] at h3
            exact absurd h3.2 (by simp)
          unfold match_pattern at h1
          simp [e3, e2] at h1
          exact h1.symm
      · simp only [h1, if_false, hinc, hdesc, Bool.and_self, if_true]
        by_cases hb : b <;> simp [hb, scan_recursive_sticky]
  | cons u pre ih =>
      intro b e r hpre
      have hpre' : ∀ v ∈ pre, ¬(is_pattern_inc_or_exc v = false ∧
          match_pattern path v = true ∧ recursiveSuffix v = true) :=
        fun v hv => hpre v (List.mem_cons_of_mem u hv)
      simp only [List.cons_append]
      unfold wildcardsGlobDirScan
      by_cases h1 : match_pattern path u
      · simp only [h1, if_true]
        by_cases h2 : is_pattern_inc_or_exc u
        · simp only [h2, if_true]
          by_cases h3 : recursiveSuffix u <;> simp [h3, ih _ _ _ hpre']
        · have h3 : recursiveSuffix u = false := by
            by_contra hcon
            simp only [Bool.not_eq_false] at hcon
            exact hpre u (List.mem_cons_self u pre)
              ⟨by simpa using h2, h1, hcon⟩
          simp only [Bool.not_eq_true] at h2
          simp [h2, h3, ih _ _ _ hpre']
      · simp only [h1, if_false]
        by_cases h2 : (is_pattern_inc_or_exc u &&
            strStartsW (strDropN u 2) (pathAddSlash path)) = true
        · simp only [h2, if_true]
          by_cases hb : b <;> simp [hb, scan_recursive_sticky]
        · simp only [Bool.not_eq_true] at h2
          simp [h2, ih _ _ _ hpre']

/-- C4 counterexample: with `["- /usr/***", "+ /usr/src/**"]` on a tree
holding `/usr/src/foo`, the walker lists only `/` — it does NOT descend into
`/usr`'s children even though `"+ /usr/src/**"` is an inclusion rule whose
prefix lies strictly below `/usr`, because the recursive exclusion matching
`/usr` breaks the scan before that rule is seen. -/
theorem glob_recursive_exclusion_counterexample :
    (wildcardsGlobImpl exampleTreeC4 "/" ["- /usr/***", "+ /usr/src/**"]).2 = ["/"] ∧
    "/usr" ∉ (wildcardsGlobImpl exampleTreeC4 "/" ["- /usr/***", "+ /usr/src/**"]).2 ∧
    is_pattern_inc_or_exc "+ /usr/src/**" = true ∧
    strStartsW (strDropN "+ /usr/src/**" 2) (pathAddSlash "/usr") = true := by
  refine ⟨by decide, by decide, rfl, rfl⟩

/-- C4 amended: during a walk, for every real directory `d` visited, if some
inclusion rule whose path text lies strictly below `d` occurs BEFORE any
recursive-mode exclusion rule matching `d`, the walker descends into `d`'s
children; a recursive-mode exclusion matching `d` stops the scan, so such an
inclusion occurring after it cannot cause descent. -/
theorem glob_descends_for_descendant_inclusion (cs : List (String × FsNode))
    (d : String) (ws pre post : List String) (w : String)
    (hsplit : ws = pre ++ w :: post)
    (hinc : is_pattern_inc_or_exc w = true)
    (hdesc : strStartsW (strDropN w 2) (pathAddSlash d) = true)
    (hne : strDropN w 2 ≠ d)
    (hpre : ∀ u ∈ pre, ¬(is_pattern_inc_or_exc u = false ∧ match_pattern d u = true ∧
      recursiveSuffix u = true)) :
    d ∈ (wildcardsGlobImpl (FsNode.dir cs) d ws).2 := by
  subst hsplit
  have h := scan_descendant_inclusion d w post hinc hdesc hne pre false false false hpre
  unfold wildcardsGlobImpl
  simp only [h, if_true]
  exact List.mem_cons_self d _

/-- C4 witness: concrete application of
`glob_descends_for_descendant_inclusion`. -/
theorem glob_descends_for_descendant_inclusion_witness :
    "/usr" ∈ (wildcardsGlobImpl (FsNode.dir [("src", FsNode.dir [])]) "/usr"
      ["+ /usr/src/**"]).2 := by
  exact glob_descends_for_descendant_inclusion [("src", FsNode.dir [])] "/usr"
    ["+ /usr/src/**"] [] [] "+ /usr/src/**" rfl rfl rfl (by decide)
    (by intro u hu; cases hu)

theorem checkMode_nofix (fs : FsObj) (fn : String) (segs : List String) (m : Nat) :
    (checkMode fs false fn segs m).1 = fs := by
  unfold checkMode
  cases lookupP fs segs with
  | none => rfl
  | some obj =>
      by_cases h : objPerm obj ≠ m <;> simp [h]

theorem checkOwnerGroup_nofix (fs : FsObj) (fn : String) (segs : List String)
    (o g : Nat) : (checkOwnerGroup fs false fn segs o g).1 = fs := by
  unfold checkOwnerGroup
  cases lookupP fs segs with
  | none => rfl
  | some obj =>
      by_cases h1 : objUid obj ≠ o <;> by_cases h2 : objGid obj ≠ g <;>
        simp [h1, h2]

/-- C6 counterexample: `_checkUsrMergeSymlink` mutates the filesystem with
auto-fix disabled — on a state where `/bin` is a real directory merging
conflict-free into `/usr/bin`, the primitive relocates the contents and
replaces `/bin` by a symlink (the merge branch never consults the auto-fix
flag): `/bin` is a real directory before and a symlink after. -/
theorem checkUsrMergeSymlink_mutates_without_autofix :
    checkUsrMergeSymlink fsLegacyBin false "/bin" "usr/bin" =
      Except.ok (fsLegacyBinMerged, []) ∧
    (lookupP fsLegacyBin ["bin"]).map isRealDirObj = some true ∧
    (lookupP fsLegacyBinMerged ["bin"]).map isLinkObj = some true ∧
    (lookupP fsLegacyBinMerged ["usr", "bin", "cat"]).isSome = true :=
  ⟨rfl, rfl, rfl, rfl⟩

/-- C6 amended: with auto-fix disabled, `_checkDir` performs no filesystem
mutation — every detected mismatch (absence, wrong kind, wrong mode, wrong
owner or group) is only reported through the error sink and the state is
returned unchanged.  The guarantee does not extend to
`_checkUsrMergeSymlink`, whose legacy-merge branch mutates even with
auto-fix disabled. -/
theorem checkDir_no_mutation_without_autofix (fs : FsObj) (fn : String)
    (mode : Option Nat) (og : Option (Nat × Nat)) :
    Except.map Prod.fst (checkDir fs false fn mode og) = Except.ok fs := by
  unfold checkDir
  by_cases hn : (lookupP fs (splitAbs fn)).isNone
  · simp [hn, Except.map]
  · simp only [hn, Bool.false_and, Bool.and_true, Bool.not_false, if_false]
    cases hl : lookupP fs (splitAbs fn) with
    | none => rw [hl] at hn; exact absurd rfl hn
    | some obj =>
        by_cases hk : (isLinkObj obj || !isRealDirObj obj) = true
        · simp [hl, hk, Except.map]
        · cases mode with
          | none =>
              cases og with
              | none => simp [hl, hk, Except.map]
              | some p => simp [hl, hk, Except.map, checkOwnerGroup_nofix]
          | some m =>
              cases og with
              | none => simp [hl, hk, Except.map, checkMode_nofix]
              | some p => simp [hl, hk, Except.map, checkMode_nofix, checkOwnerGroup_nofix]

/-- C7: if the recursive comparison of the legacy directory against the
target reports at least one conflict, the merge operation performs zero
filesystem mutations — the state is returned unchanged and the single
conflict report is emitted; relocation runs only on a conflict-free
comparison. -/
theorem usrmerge_conflict_no_mutation (fs : FsObj) (bAutoFix : Bool)
    (fn target : String) (obj tgtObj : FsObj)
    (hobj : lookupP fs (splitAbs fn) = some obj)
    (htgt : lookupP fs (splitAbs (osPathJoin (dirname fn) target)) = some tgtObj)
    (htdir : isRealDirObj tgtObj = true)
    (hnl : isLinkObj obj = false)
    (hdir : isRealDirObj obj = true)
    (hconf : compare_dir fn (osPathJoin (dirname fn) target) obj tgtObj ≠ []) :
    checkUsrMergeSymlink fs bAutoFix fn target =
      Except.ok (fs, ["Directory \"" ++ fn ++ "\" and \"" ++ target ++
        "\" has common files, no way to combine them."]) := by
  unfold checkUsrMergeSymlink
  simp [hobj, htgt, htdir, hnl, hdir, hconf]

/-- C7 witness: concrete application of `usrmerge_conflict_no_mutation` — a
shared file name with differing permissions yields exactly one conflict and
no mutation. -/
theorem usrmerge_conflict_no_mutation_witness :
    checkUsrMergeSymlink fsConflictBin false "/bin" "usr/bin" =
      Except.ok (fsConflictBin,
        ["Directory \"/bin\" and \"usr/bin\" has common files, no way to combine them."]) := by
  have h := usrmerge_conflict_no_mutation fsConflictBin false "/bin" "usr/bin"
    (FsObj.dir 493 0 0 [("cat", FsObj.file 493 0 0)])
    (FsObj.dir 493 0 0 [("cat", FsObj.file 420 0 0)])
    rfl rfl rfl rfl rfl (by intro hcon; exact absurd hcon (by decide))
  simpa using h

theorem listPref_iff_exists (a b : List Char) :
    listPref a b = true ↔ ∃ t, b = a ++ t := by
  induction a generalizing b with
  | nil => simp [listPref]
  | cons x as ih =>
      cases b with
      | nil =>
          simp only [listPref]
          constructor
          · intro h; cases h
          · rintro ⟨t, ht⟩; cases ht
      | cons y bs =>
          simp only [listPref, Bool.and_eq_true, beq_iff_eq, ih]
          constructor
          · rintro ⟨rfl, t, rfl⟩; exact ⟨t, rfl⟩
          · rintro ⟨t, ht⟩
            injection ht with h1 h2
            exact ⟨h1.symm, t, h2⟩

theorem listPref_self_append (a c : List Char) : listPref a (a ++ c) = true :=
  (listPref_iff_exists a (a ++ c)).mpr ⟨c, rfl⟩

theorem listPref_length (a b : List Char) (h : listPref a b = true) :
    a.length ≤ b.length := by
  obtain ⟨t, rfl⟩ := (listPref_iff_exists a b).mp h
  simp

theorem listPref_trans (a b c : List Char) (h1 : listPref a b = true)
    (h2 : listPref b c = true) : listPref a c = true := by
  obtain ⟨t, rfl⟩ := (listPref_iff_exists a b).mp h1
  obtain ⟨u, rfl⟩ := (listPref_iff_exists (a ++ t) c).mp h2
  exact (listPref_iff_exists _ _).mpr ⟨t ++ u, by simp⟩

theorem listPref_cancel (x a b : List Char) :
    listPref (x ++ a) (x ++ b) = listPref a b := by
  induction x with
  | nil => rfl
  | cons c cs ih => simp [listPref, ih]

theorem strData_append (a b : String) : (a ++ b).data = a.data ++ b.data := by
  cases a; cases b; rfl

theorem str_eq_iff_data (s t : String) : s = t ↔ s.data = t.data := by
  constructor
  · intro h; rw [h]
  · intro h; cases s; cases t; exact congrArg String.mk h

theorem pathAddSlash_len (p : String) :
    p.data.length ≤ (pathAddSlash p).data.length := by
  unfold pathAddSlash
  by_cases h : p = "/"
  · simp [h]
  · simp [h, strData_append]

theorem pathAddSlash_len_pos (p : String) : 1 ≤ (pathAddSlash p).data.length := by
  unfold pathAddSlash
  by_cases h : p = "/"
  · simp [h]
  · simp [h, strData_append]

theorem pathJoin_data (p m : String) :
    (pathJoin p m).data = (pathAddSlash p).data ++ m.data := by
  unfold pathJoin
  exact strData_append _ _

theorem not_below_of_shorter (p s : String) (h : p.data.length < s.data.length) :
    p ≠ s ∧ ¬ strictlyBelow p s := by
  constructor
  · intro he; rw [he] at h; exact Nat.lt_irrefl _ h
  · intro hsb
    have h1 := listPref_length _ _ hsb.2
    have h2 := pathAddSlash_len s
    omega

theorem validName_parts (m : String) (h : validName m = true) :
    m.data ≠ [] ∧ '/' ∉ m.data := by
  unfold validName at h
  simp only [Bool.and_eq_true, Bool.not_eq_true', decide_eq_true_eq] at h
  exact ⟨by simpa [List.isEmpty_iff] using h.1, h.2⟩

theorem pathJoin_ne_root (p m : String) (hm : validName m = true) :
    pathJoin p m ≠ "/" := by
  intro h
  have hd := (str_eq_iff_data _ _).mp h
  rw [pathJoin_data] at hd
  have h1 := pathAddSlash_len_pos p
  have h2 := (validName_parts m hm).1
  have h3 : (1 : Nat) ≤ m.data.length := by
    cases hme : m.data with
    | nil => exact absurd hme h2
    | cons c l => simp
  have : ((pathAddSlash p).data ++ m.data).length = 1 := by
    rw [hd]; rfl
  simp only [List.length_append] at this
  omega

theorem coreNeq (m : List Char) : ∀ (n u v : List Char), m ≠ n → '/' ∉ m → '/' ∉ n →
    (u = [] ∨ ∃ u', u = '/' :: u') → (v = [] ∨ ∃ v', v = '/' :: v') →
    m ++ u ≠ n ++ v := by
  induction m with
  | nil =>
      intro n u v hmn hm hn hu hv heq
      cases n with
      | nil => exact hmn rfl
      | cons b n' =>
          rcases hu with rfl | ⟨u', rfl⟩
          · exact List.cons_ne_nil b (n' ++ v) heq.symm
          · simp only [List.nil_append, List.cons_append] at heq
            injection heq with h1 h2
            exact hn (h1 ▸ List.mem_cons_self b n')
  | cons a m' ih =>
      intro n u v hmn hm hn hu hv heq
      cases n with
      | nil =>
          rcases hv with rfl | ⟨v', rfl⟩
          · exact List.cons_ne_nil a (m' ++ u) heq
          · simp only [List.cons_append, List.nil_append] at heq
            injection heq with h1 h2
            exact hm (h1.symm ▸ List.mem_cons_self a m')
      | cons b n' =>
          simp only [List.cons_append] at heq
          injection heq with h1 h2
          refine ih n' u v ?_ ?_ ?_ hu hv h2
          · intro hc; exact hmn (by rw [h1, hc])
          · intro hc; exact hm (List.mem_cons_of_mem a hc)
          · intro hc; exact hn (List.mem_cons_of_mem b hc)

theorem corePref (m : List Char) : ∀ (n u v : List Char), m ≠ n → '/' ∉ m → '/' ∉ n →
    (u = [] ∨ ∃ u', u = '/' :: u') →
    listPref (n ++ '/' :: v) (m ++ u) = false := by
  induction m with
  | nil =>
      intro n u v hmn hm hn hu
      cases n with
      | nil => exact absurd rfl hmn
      | cons b n' =>
          rcases hu with rfl | ⟨u', rfl⟩
          · simp [listPref]
          · have hb : ¬(b = '/') := fun h => hn (h ▸ List.mem_cons_self b n')
            simp [listPref, hb]
  | cons a m' ih =>
      intro n u v hmn hm hn hu
      cases n with
      | nil =>
          have ha : ¬('/' = a) := fun h => hm (h ▸ List.mem_cons_self a m')
          simp [listPref, ha]
      | cons b n' =>
          simp only [List.cons_append, listPref]
          by_cases hab : b = a
          · subst hab
            simp only [beq_self_eq_true, Bool.true_and]
            refine ih n' u v ?_ ?_ ?_ hu
            · intro hc; exact hmn (by rw [hc])
            · intro hc; exact hm (List.mem_cons_of_mem b hc)
            · intro hc; exact hn (List.mem_cons_of_mem b hc)
          · simp [hab]

theorem validTree_dir_parts (cs : List (String × FsNode))
    (h : validTree (FsNode.dir cs) = true) :
    distinctNames (cs.map Prod.fst) = true ∧ validEntries cs = true := by
  unfold validTree at h
  exact Bool.and_eq_true _ _ |>.mp h

theorem validEntries_mem (cs : List (String × FsNode)) (m : String) (c : FsNode)
    (h : validEntries cs = true) (hm : (m, c) ∈ cs) :
    validName m = true ∧ validTree c = true := by
  induction cs with
  | nil => cases hm
  | cons e rest ih =>
      obtain ⟨n, d⟩ := e
      unfold validEntries at h
      simp only [Bool.and_eq_true] at h
      rcases List.mem_cons.mp hm with he | hm'
      · injection he with h1 h2
        subst h1; subst h2
        exact ⟨h.1.1, h.1.2⟩
      · exact ih h.2 hm'

theorem lookupFsN_some_mem (n : String) (cs : List (String × FsNode)) (c : FsNode)
    (h : lookupFsN n cs = some c) : (n, c) ∈ cs := by
  induction cs with
  | nil => cases h
  | cons e rest ih =>
      obtain ⟨m, d⟩ := e
      unfold lookupFsN at h
      by_cases hm : m = n
      · subst hm
        simp only [if_true] at h
        injection h with h1
        subst h1
        exact List.mem_cons_self _ _
      · rw [if_neg hm] at h
        exact List.mem_cons_of_mem _ (ih h)

theorem lookupFsN_unique (n : String) (cs : List (String × FsNode)) (c c' : FsNode)
    (hd : distinctNames (cs.map Prod.fst) = true)
    (hl : lookupFsN n cs = some c) (hm : (n, c') ∈ cs) : c' = c := by
  induction cs with
  | nil => cases hm
  | cons e rest ih =>
      obtain ⟨m, d⟩ := e
      simp only [List.map_cons, distinctNames, Bool.and_eq_true, decide_eq_true_eq] at hd
      unfold lookupFsN at hl
      by_cases hmn : m = n
      · subst hmn
        simp only [if_true] at hl
        injection hl with h1
        subst h1
        rcases List.mem_cons.mp hm with he | hm'
        · exact congrArg Prod.snd he
        · exact absurd (List.mem_map.mpr ⟨(m, c'), hm', rfl⟩) hd.1
      · rw [if_neg hmn] at hl
        rcases List.mem_cons.mp hm with he | hm'
        · injection he with h1 _; exact absurd h1.symm hmn
        · exact ih hd.2 hl hm'

theorem globChildren_mem_fst (cs : List (String × FsNode)) (path : String)
    (ws : List String) (p : String) :
    p ∈ (wildcardsGlobChildren cs path ws).1 ↔
      ∃ e, e ∈ cs ∧ p ∈ (wildcardsGlobImpl e.2 (pathJoin path e.1) ws).1 := by
  induction cs with
  | nil =>
      simp [wildcardsGlobChildren]
  | cons e rest ih =>
      simp only [wildcardsGlobChildren, List.mem_append, ih]
      constructor
      · rintro (h | ⟨f, hf, hp⟩)
        · exact ⟨e, List.mem_cons_self e rest, h⟩
        · exact ⟨f, List.mem_cons_of_mem e hf, hp⟩
      · rintro ⟨f, hf, hp⟩
        rcases List.mem_cons.mp hf with rfl | hf'
        · exact Or.inl hp
        · exact Or.inr ⟨f, hf', hp⟩

theorem globChildren_mem_snd (cs : List (String × FsNode)) (path : String)
    (ws : List String) (q : String) :
    q ∈ (wildcardsGlobChildren cs path ws).2 ↔
      ∃ e, e ∈ cs ∧ q ∈ (wildcardsGlobImpl e.2 (pathJoin path e.1) ws).2 := by
  induction cs with
  | nil =>
      simp [wildcardsGlobChildren]
  | cons e rest ih =>
      simp only [wildcardsGlobChildren, List.mem_append, ih]
      constructor
      · rintro (h | ⟨f, hf, hp⟩)
        · exact ⟨e, List.mem_cons_self e rest, h⟩
        · exact ⟨f, List.mem_cons_of_mem e hf, hp⟩
      · rintro ⟨f, hf, hp⟩
        rcases List.mem_cons.mp hf with rfl | hf'
        · exact Or.inl hp
        · exact Or.inr ⟨f, hf', hp⟩

theorem addSlash_pathJoin_pref (path m : String) :
    listPref (pathAddSlash path).data (pathAddSlash (pathJoin path m)).data = true := by
  by_cases hj : pathJoin path m = "/"
  · rw [hj]
    have : (pathAddSlash path).data ++ m.data = ['/'] := by
      rw [← pathJoin_data, hj]
    have h2 := listPref_self_append (pathAddSlash path).data m.data
    rw [this] at h2
    exact h2
  · unfold pathAddSlash
    rw [if_neg hj]
    rw [strData_append, pathJoin_data, List.append_assoc]
    exact listPref_self_append _ _

theorem in_cone_start (x path m : String)
    (h : x = pathJoin path m ∨ strStartsW x (pathAddSlash (pathJoin path m)) = true) :
    strStartsW x (pathAddSlash path) = true := by
  rcases h with rfl | h
  · unfold strStartsW
    rw [pathJoin_data]
    exact listPref_self_append _ _
  · exact listPref_trans _ _ _ (addSlash_pathJoin_pref path m) h

theorem joinSegs_cone (segs : List String) : ∀ (path : String),
    joinSegs path segs = path ∨
      strStartsW (joinSegs path segs) (pathAddSlash path) = true := by
  induction segs with
  | nil => intro path; exact Or.inl rfl
  | cons n rest ih =>
      intro path
      have h := ih (pathJoin path n)
      exact Or.inr (in_cone_start _ path n (by simpa [joinSegs] using h))

theorem joinSegs_len_lt (rest : List String) :
    ∀ (t : FsNode) (path n : String) (x : FsNode),
      validTree t = true → nodeAtReal t (n :: rest) = some x →
      path.data.length < (joinSegs path (n :: rest)).data.length := by
  induction rest with
  | nil =>
      intro t path n x hval hat
      cases t with
      | file => simp [nodeAtReal] at hat
      | linkDir cs2 => simp [nodeAtReal] at hat
      | dir cs' =>
          unfold nodeAtReal at hat
          cases hl : lookupFsN n cs' with
          | none => rw [hl] at hat; cases hat
          | some c =>
              have hparts := validTree_dir_parts cs' hval
              have hmem := lookupFsN_some_mem n cs' c hl
              have hvn := (validEntries_mem cs' n c hparts.2 hmem).1
              have hn1 : 1 ≤ n.data.length := by
                have := (validName_parts n hvn).1
                cases hme : n.data with
                | nil => exact absurd hme this
                | cons a l => simp
              show path.data.length < (pathJoin path n).data.length
              rw [pathJoin_data, List.length_append]
              have := pathAddSlash_len path
              omega
  | cons m rest' ih =>
      intro t path n x hval hat
      cases t with
      | file => simp [nodeAtReal] at hat
      | linkDir cs2 => simp [nodeAtReal] at hat
      | dir cs' =>
          unfold nodeAtReal at hat
          cases hl : lookupFsN n cs' with
          | none => rw [hl] at hat; cases hat
          | some c =>
              rw [hl] at hat
              have hparts := validTree_dir_parts cs' hval
              have hmem := lookupFsN_some_mem n cs' c hl
              have hve := validEntries_mem cs' n c hparts.2 hmem
              have h1 : (pathJoin path n).data.length <
                  (joinSegs (pathJoin path n) (m :: rest')).data.length :=
                ih c (pathJoin path n) m x hve.2 hat
              have hn1 : 1 ≤ n.data.length := by
                have := (validName_parts n hve.1).1
                cases hme : n.data with
                | nil => exact absurd hme this
                | cons a l => simp
              have h2 : path.data.length < (pathJoin path n).data.length := by
                rw [pathJoin_data, List.length_append]
                have := pathAddSlash_len path
                omega
              show path.data.length < (joinSegs (pathJoin path n) (m :: rest')).data.length
              omega

theorem globImpl_dir_eq (cs : List (String × FsNode)) (path : String)
    (ws : List String) :
    wildcardsGlobImpl (FsNode.dir cs) path ws =
      if (wildcardsGlobDirScan path ws false false false).2 then
        ((if (wildcardsGlobDirScan path ws false false false).1 then [path] else []) ++
            (wildcardsGlobChildren cs path ws).1,
          path :: (wildcardsGlobChildren cs path ws).2)
      else
        ((if (wildcardsGlobDirScan path ws false false false).1 then [path] else []),
          []) := by
  rfl

theorem globImpl_file_eq (path : String) (ws : List String) :
    wildcardsGlobImpl FsNode.file path ws =
      (if wildcardsMatchLoop path ws then [path] else [], []) := rfl

theorem globImpl_link_eq (cs : List (String × FsNode)) (path : String)
    (ws : List String) :
    wildcardsGlobImpl (FsNode.linkDir cs) path ws =
      (if wildcardsMatchLoop path ws then [path] else [], []) := rfl

theorem glob_cone (t : FsNode) (path : String) (ws : List String) :
    (∀ p ∈ (wildcardsGlobImpl t path ws).1,
        p = path ∨ strStartsW p (pathAddSlash path) = true) ∧
    (∀ q ∈ (wildcardsGlobImpl t path ws).2,
        q = path ∨ strStartsW q (pathAddSlash path) = true) := by
  cases t with
  | file =>
      rw [globImpl_file_eq]
      constructor
      · intro p hp
        by_cases h : wildcardsMatchLoop path ws <;> simp [h] at hp
        exact Or.inl hp
      · intro q hq
        simp at hq
  | linkDir cs =>
      rw [globImpl_link_eq]
      constructor
      · intro p hp
        by_cases h : wildcardsMatchLoop path ws <;> simp [h] at hp
        exact Or.inl hp
      · intro q hq
        simp at hq
  | dir cs =>
      rw [globImpl_dir_eq]
      by_cases ha2 : (wildcardsGlobDirScan path ws false false false).2 = true
      · simp only [ha2, if_true]
        constructor
        · intro p hp
          rcases List.mem_append.mp hp with h | h
          · by_cases h1 : (wildcardsGlobDirScan path ws false false false).1 <;>
              simp [h1] at h
            exact Or.inl h
          · obtain ⟨e, he, hpe⟩ := (globChildren_mem_fst cs path ws p).mp h
            have hc := glob_cone e.2 (pathJoin path e.1) ws
            exact Or.inr (in_cone_start p path e.1 (hc.1 p hpe))
        · intro q hq
          rcases List.mem_cons.mp hq with rfl | h
          · exact Or.inl rfl
          · obtain ⟨e, he, hqe⟩ := (globChildren_mem_snd cs path ws q).mp h
            have hc := glob_cone e.2 (pathJoin path e.1) ws
            exact Or.inr (in_cone_start q path e.1 (hc.2 q hqe))
      · simp only [Bool.not_eq_true] at ha2
        simp only [ha2, if_false]
        constructor
        · intro p hp
          by_cases h1 : (wildcardsGlobDirScan path ws false false false).1 <;>
            simp [h1] at hp
          exact Or.inl hp
        · intro q hq
          simp at hq
termination_by sizeOf t
decreasing_by
  all_goals
    have h1 := List.sizeOf_lt_of_mem he
    obtain ⟨n1, c1⟩ := e
    simp at h1 ⊢
    omega

theorem cone_decomp (x path m : String) (hm : validName m = true)
    (h : x = pathJoin path m ∨ strStartsW x (pathAddSlash (pathJoin path m)) = true) :
    ∃ u, x.data = (pathAddSlash path).data ++ m.data ++ u ∧
      (u = [] ∨ ∃ u', u = '/' :: u') := by
  rcases h with rfl | h
  · refine ⟨[], ?_, Or.inl rfl⟩
    rw [pathJoin_data, List.append_nil]
  · have hj : pathAddSlash (pathJoin path m) = pathJoin path m ++ "/" := by
      unfold pathAddSlash
      rw [if_neg (pathJoin_ne_root path m hm)]
    rw [hj] at h
    unfold strStartsW at h
    obtain ⟨t, ht⟩ := (listPref_iff_exists _ _).mp h
    refine ⟨'/' :: t, ?_, Or.inr ⟨t, rfl⟩⟩
    rw [ht, strData_append, pathJoin_data]
    have hsd : ("/" : String).data = ['/'] := rfl
    rw [hsd]
    simp

theorem cone_disjoint (p s path mseg nseg : String)
    (hm : validName mseg = true) (hn : validName nseg = true)
    (hmn : mseg ≠ nseg)
    (hp : p = pathJoin path mseg ∨
      strStartsW p (pathAddSlash (pathJoin path mseg)) = true)
    (hs : s = pathJoin path nseg ∨
      strStartsW s (pathAddSlash (pathJoin path nseg)) = true) :
    p ≠ s ∧ ¬ strictlyBelow p s := by
  obtain ⟨u, hpu, hu⟩ := cone_decomp p path mseg hm hp
  obtain ⟨v, hsv, hv⟩ := cone_decomp s path nseg hn hs
  have hmd : mseg.data ≠ nseg.data := fun h => hmn ((str_eq_iff_data _ _).mpr h)
  have hm' := validName_parts mseg hm
  have hn' := validName_parts nseg hn
  have hn1 : 1 ≤ nseg.data.length := by
    cases hme : nseg.data with
    | nil => exact absurd hme hn'.1
    | cons a l => simp
  constructor
  · intro he
    have hd : p.data = s.data := (str_eq_iff_data _ _).mp he
    rw [hpu, hsv, List.append_assoc, List.append_assoc] at hd
    exact coreNeq mseg.data nseg.data u v hmd hm'.2 hn'.2 hu hv
      (List.append_cancel_left hd)
  · intro hsb
    have hlen2 : 2 ≤ s.data.length := by
      rw [hsv]
      simp only [List.length_append]
      have := pathAddSlash_len_pos path
      omega
    have hs_ne_root : s ≠ "/" := by
      intro h
      rw [h] at hlen2
      exact absurd hlen2 (by decide)
    have haps : pathAddSlash s = s ++ "/" := by
      unfold pathAddSlash
      rw [if_neg hs_ne_root]
    have h2 := hsb.2
    rw [haps] at h2
    unfold strStartsW at h2
    rw [strData_append, hpu, hsv] at h2
    have hsd : ("/" : String).data = ['/'] := rfl
    rw [hsd] at h2
    simp only [List.append_assoc] at h2
    rw [listPref_cancel] at h2
    rcases hv with rfl | ⟨v', rfl⟩
    · simp only [List.nil_append] at h2
      rw [corePref mseg.data nseg.data u [] hmd hm'.2 hn'.2 hu] at h2
      cases h2
    · simp only [List.cons_append] at h2
      rw [corePref mseg.data nseg.data u (v' ++ ['/']) hmd hm'.2 hn'.2 hu] at h2
      cases h2

theorem nodeAtReal_dir_eq (cs : List (String × FsNode)) (n : String)
    (rest : List String) :
    nodeAtReal (FsNode.dir cs) (n :: rest) =
      match lookupFsN n cs with
      | some c => nodeAtReal c rest
      | none => none := rfl

/-- C5: for every pattern set and every well-formed tree in which the node
reached through real directories by `segs` is a symbolic link to a directory
(a `linkDir`, carrying the link target's entries), the walk never descends
through the link: the link's path is never passed to `os.listdir`, no listed
directory lies at or below it, and no emitted path lies strictly below it —
even when a recursive-inclusion rule's prefix lies inside the link target;
the link itself is evaluated as a leaf and may at most be emitted. -/
theorem glob_never_descends_symlink_dir (segs : List String) :
    ∀ (t : FsNode) (path : String) (ws : List String) (cs : List (String × FsNode)),
    validTree t = true →
    nodeAtReal t segs = some (FsNode.linkDir cs) →
    (∀ p ∈ (wildcardsGlobImpl t path ws).1,
        ¬ strictlyBelow p (joinSegs path segs)) ∧
    (∀ q ∈ (wildcardsGlobImpl t path ws).2,
        q ≠ joinSegs path segs ∧ ¬ strictlyBelow q (joinSegs path segs)) := by
  induction segs with
  | nil =>
      intro t path ws cs hval hat
      have ht : t = FsNode.linkDir cs := by
        simpa [nodeAtReal] using hat
      subst ht
      rw [globImpl_link_eq]
      constructor
      · intro p hp
        by_cases h : wildcardsMatchLoop path ws <;> simp [h] at hp
        subst hp
        intro hsb
        exact hsb.1 rfl
      · intro q hq
        simp at hq
  | cons n rest ih =>
      intro t path ws cs hval hat
      cases t with
      | file => simp [nodeAtReal] at hat
      | linkDir cs2 => simp [nodeAtReal] at hat
      | dir cs' =>
          rw [nodeAtReal_dir_eq] at hat
          cases hl : lookupFsN n cs' with
          | none => rw [hl] at hat; cases hat
          | some c =>
              rw [hl] at hat
              have hparts := validTree_dir_parts cs' hval
              have hmemc := lookupFsN_some_mem n cs' c hl
              have hvc := validEntries_mem cs' n c hparts.2 hmemc
              have hlen : path.data.length < (joinSegs path (n :: rest)).data.length :=
                joinSegs_len_lt rest (FsNode.dir cs') path n (FsNode.linkDir cs) hval
                  (by rw [nodeAtReal_dir_eq, hl]; exact hat)
              have hpath := not_below_of_shorter path (joinSegs path (n :: rest)) hlen
              have hscone : joinSegs path (n :: rest) = pathJoin path n ∨
                  strStartsW (joinSegs path (n :: rest))
                    (pathAddSlash (pathJoin path n)) = true :=
                joinSegs_cone rest (pathJoin path n)
              rw [globImpl_dir_eq]
              by_cases ha2 : (wildcardsGlobDirScan path ws false false false).2 = true
              · simp only [ha2, if_true]
                constructor
                · intro p hp
                  rcases List.mem_append.mp hp with h | h
                  · by_cases h1 : (wildcardsGlobDirScan path ws false false false).1 <;>
                      simp [h1] at h
                    subst h
                    exact hpath.2
                  · obtain ⟨e, he, hpe⟩ := (globChildren_mem_fst cs' path ws p).mp h
                    by_cases hen : e.1 = n
                    · have hec : e.2 = c := lookupFsN_unique n cs' c e.2 hparts.1 hl
                        (by rw [← hen]; simpa using he)
                      rw [hec, hen] at hpe
                      exact (ih c (pathJoin path n) ws cs hvc.2 hat).1 p hpe
                    · have hve := validEntries_mem cs' e.1 e.2 hparts.2 (by simpa using he)
                      have hcone := (glob_cone e.2 (pathJoin path e.1) ws).1 p hpe
                      exact (cone_disjoint p (joinSegs path (n :: rest)) path e.1 n
                        hve.1 hvc.1 hen hcone hscone).2
                · intro q hq
                  rcases List.mem_cons.mp hq with rfl | h
                  · exact hpath
                  · obtain ⟨e, he, hqe⟩ := (globChildren_mem_snd cs' path ws q).mp h
                    by_cases hen : e.1 = n
                    · have hec : e.2 = c := lookupFsN_unique n cs' c e.2 hparts.1 hl
                        (by rw [← hen]; simpa using he)
                      rw [hec, hen] at hqe
                      exact (ih c (pathJoin path n) ws cs hvc.2 hat).2 q hqe
                    · have hve := validEntries_mem cs' e.1 e.2 hparts.2 (by simpa using he)
                      have hcone := (glob_cone e.2 (pathJoin path e.1) ws).2 q hqe
                      exact cone_disjoint q (joinSegs path (n :: rest)) path e.1 n
                        hve.1 hvc.1 hen hcone hscone
              · simp only [Bool.not_eq_true] at ha2
                simp only [ha2, if_false]
                constructor
                · intro p hp
                  by_cases h1 : (wildcardsGlobDirScan path ws false false false).1 <;>
                    simp [h1] at hp
                  subst hp
                  exact hpath.2
                · intro q hq
                  simp at hq

/-- C5 witness: concrete application of `glob_never_descends_symlink_dir` on
a tree whose `/a` is a symlink to a directory containing `b`, with a
recursive-inclusion rule reaching inside the link target. -/
theorem glob_never_descends_symlink_dir_witness :
    validTree (FsNode.dir [("a", FsNode.linkDir [("b", FsNode.dir [])])]) = true ∧
    (∀ p ∈ (wildcardsGlobImpl (FsNode.dir [("a", FsNode.linkDir [("b", FsNode.dir [])])])
        "/" ["+ /a/***"]).1, ¬ strictlyBelow p "/a") ∧
    (∀ q ∈ (wildcardsGlobImpl (FsNode.dir [("a", FsNode.linkDir [("b", FsNode.dir [])])])
        "/" ["+ /a/***"]).2, q ≠ "/a" ∧ ¬ strictlyBelow q "/a") := by
  have h := glob_never_descends_symlink_dir ["a"]
    (FsNode.dir [("a", FsNode.linkDir [("b", FsNode.dir [])])]) "/" ["+ /a/***"]
    [("b", FsNode.dir [])] (by decide) rfl
  exact ⟨by decide, h.1, h.2⟩
